import Mathlib

/-
Verification of the storage accessor module.

The repository has two variants of the same accessor:
  - a legacy JavaScript variant exporting getEntryFromStorage,
    setItemInStorage, hasPropertyForKey and updateStoredPropsForKey,
    which degrades every failure to a sentinel return value, and
  - a typed variant (the storageActions object) returning a
    StorageResult record with success, data and error fields.

The external collaborator localStorage is modelled as a partial map from
string keys to raw strings.  The module observes a raw string only
through two operations: the emptiness test on the raw text, and
JSON.parse.  A raw string is therefore modelled up to those
observations: it is either the JSON text of some value, a nonempty text
that fails to parse, or the empty string.  JSON.stringify of a value is
the JSON text of that value, and JSON.parse of that text yields the
value back; this is the contract of the platform JSON object, which is
not code of this repository.
-/

/-- The JSON value domain of the module.  Numbers are modelled as
integers, which covers every value the claims exercise; objects are
association lists of fields in insertion order. -/
inductive JSValue where
  | null
  | bool (b : Bool)
  | num (n : Int)
  | str (s : String)
  | arr (xs : List JSValue)
  | obj (fields : List (String × JSValue))
deriving Repr

/-- A raw string held in the store, modelled up to the observations the
module makes of it: emptiness and the result of JSON.parse. -/
inductive RawString where
  | jsonText (v : JSValue)
  | badText
  | emptyText
deriving Repr

/-- The external key-value store. -/
abbrev Store := String → Option RawString

def emptyStore : Store := fun _ => none

/-- localStorage.setItem. -/
def storeSet (st : Store) (key : String) (raw : RawString) : Store :=
  fun k => if k = key then some raw else st k

/-- The truthiness test the module applies to a raw string retrieved
from the store: only the empty string is falsy.  JSON text of a value
is never empty. -/
def rawFalsy : RawString → Bool
  | .jsonText _ => false
  | .badText => false
  | .emptyText => true

/-- JSON.parse on a stored raw string.  Bad text throws a SyntaxError
whose message never mentions a missing key. -/
def jsonParse : RawString → Except String JSValue
  | .jsonText v => .ok v
  | .badText => .error "Unexpected token in JSON"
  | .emptyText => .error "Unexpected end of JSON input"

/-- JSON.stringify on a value. -/
def jsonStringify (v : JSValue) : RawString := .jsonText v

/-- JavaScript truthiness of a value. -/
def truthy : JSValue → Bool
  | .null => false
  | .bool b => b
  | .num n => n != 0
  | .str s => s != ""
  | .arr _ => true
  | .obj _ => true

/-- The own property names of Object.prototype, which every plain
object produced by JSON.parse or an object literal inherits.  Reading
any of them on an object with no own property of that name yields a
truthy value: a function, or for the accessor named underscore-proto
the Object.prototype object itself.  For a plain object this list is
the entire prototype chain; arrays and boxed primitives additionally
inherit members of their own prototypes, which are not enumerated here
(no operation of this module reaches them under the claims). -/
def protoProps : List String :=
  ["constructor", "hasOwnProperty", "isPrototypeOf",
   "propertyIsEnumerable", "toLocaleString", "toString", "valueOf",
   "__proto__", "__defineGetter__", "__defineSetter__",
   "__lookupGetter__", "__lookupSetter__"]

/-- The result of a JavaScript property read: undefined, a JSON value
(an own property or a boxed element), or an inherited Object.prototype
member, which is defined and truthy but is not a JSON value. -/
inductive PropRead where
  | notDefined
  | val (v : JSValue)
  | protoMember
deriving Repr

/-- Truthiness of a property read: undefined is falsy, an inherited
prototype member (a function or the prototype object) is truthy. -/
def truthyRead : PropRead → Bool
  | .notDefined => false
  | .val v => truthy v
  | .protoMember => true

/-- Whether a property read is distinct from undefined. -/
def PropRead.isDefined : PropRead → Bool
  | .notDefined => false
  | _ => true

/-- The JSON value a property read contributes when it is assigned into
an entry that is later serialized.  The reads assigned by this module
are always own-key reads, hence the val case; an assigned undefined or
inherited function would be dropped by JSON.stringify and neither case
is reachable in the flows below. -/
def PropRead.storedValue : PropRead → JSValue
  | .val v => v
  | .notDefined => JSValue.null
  | .protoMember => JSValue.null

/-- The read of a property that is not an own property: an inherited
Object.prototype member when the name is one of them, undefined
otherwise. -/
def protoFallback (p : String) : PropRead :=
  if protoProps.contains p then .protoMember else .notDefined

/-- First-match lookup in an object field list. -/
def assocLookup : List (String × JSValue) → String → Option JSValue
  | [], _ => none
  | e :: rest, k => if e.1 = k then some e.2 else assocLookup rest k

/-- The full JavaScript property read on a plain object: the own
property when present, otherwise the Object.prototype chain. -/
def readOwn (fs : List (String × JSValue)) (k : String) : PropRead :=
  match assocLookup fs k with
  | some v => .val v
  | none => protoFallback k

/-- Replace the value of the first field named k. -/
def replaceKey : List (String × JSValue) → String → JSValue → List (String × JSValue)
  | [], _, _ => []
  | e :: rest, k, v => if e.1 = k then (k, v) :: rest else e :: replaceKey rest k v

/-- JavaScript property assignment on an object: overwrite the existing
slot in place, or append a new field at the end. -/
def objInsert (fs : List (String × JSValue)) (k : String) (v : JSValue) :
    List (String × JSValue) :=
  if (assocLookup fs k).isSome then replaceKey fs k v else fs ++ [(k, v)]

/-- JavaScript property assignment on a plain object.  Assigning to the
inherited accessor named underscore-proto when no own property of that
name exists invokes its setter, which never creates an own property:
the serialized entry is unchanged (for an object operand the setter
would also replace the prototype, a side effect outside the JSON value
domain and unreachable under the claims).  Every other assignment
creates or overwrites the own slot. -/
def objAssign (fs : List (String × JSValue)) (k : String) (v : JSValue) :
    List (String × JSValue) :=
  if k == "__proto__" && !(assocLookup fs k).isSome then fs
  else objInsert fs k v

/-- Decode a property name as an in-range element index. -/
def decodeIndex (p : String) (n : Nat) : Option Nat :=
  match p.toNat? with
  | some i => if i < n then some i else none
  | none => none

/-- Object.keys.  Arrays and boxed strings enumerate their index
properties; other primitives have none; null throws. -/
def jsKeys : JSValue → Except String (List String)
  | .null => .error "Cannot convert undefined or null to object"
  | .bool _ => .ok []
  | .num _ => .ok []
  | .str s => .ok ((List.range s.length).map toString)
  | .arr xs => .ok ((List.range xs.length).map toString)
  | .obj fs => .ok (fs.map Prod.fst)

/-- JavaScript property read, prototype chain included.  Reading a
property of null throws; on any other receiver an own property (or
boxed element, or length) is returned, and otherwise the lookup falls
through to the inherited Object.prototype members. -/
def getProp : JSValue → String → Except String PropRead
  | .null, _ => .error "Cannot read properties of null"
  | .bool _, p => .ok (protoFallback p)
  | .num _, p => .ok (protoFallback p)
  | .str s, p =>
    if p = "length" then .ok (.val (.num s.length))
    else
      match decodeIndex p s.length with
      | some i => .ok (.val (.str (String.singleton (s.toList.getD i ' '))))
      | none => .ok (protoFallback p)
  | .arr xs, p =>
    if p = "length" then .ok (.val (.num xs.length))
    else
      match decodeIndex p xs.length with
      | some i => .ok (.val (xs.getD i .null))
      | none => .ok (protoFallback p)
  | .obj fs, p => .ok (readOwn fs p)

/-- JavaScript property assignment in strict mode (the sources are
modules).  Assigning to a primitive throws; an array write outside the
index range is not representable in the JSON value domain and is
dropped, which agrees with what JSON.stringify would later keep;
object assignment follows objAssign, including the inherited setter of
the accessor property named proto. -/
def setProp : JSValue → String → JSValue → Except String JSValue
  | .null, _, _ => .error "Cannot set properties of null"
  | .bool _, _, _ => .error "Cannot create property on a boolean"
  | .num _, _, _ => .error "Cannot create property on a number"
  | .str _, _, _ => .error "Cannot assign to read only property of a string"
  | .arr xs, p, v =>
    match decodeIndex p xs.length with
    | some i => .ok (.arr (xs.set i v))
    | none => .ok (.arr xs)
  | .obj fs, p, v => .ok (.obj (objAssign fs p v))

/-- Whether no usable entry exists for the key: the lookup is absent or
the raw text is empty, exactly the condition of the not-found branch in
both variants. -/
def noEntry (st : Store) (key : String) : Bool :=
  match st key with
  | none => true
  | some raw => rawFalsy raw

/-- Legacy getEntryFromStorage.  A missing or empty entry raises an
internal error that is caught and logged, and the function returns
null; JSON.parse runs outside the try block, so a parse failure is
thrown to the caller, modelled as the error case. -/
def getEntryFromStorage (st : Store) (key : String) :
    Except String JSValue × Store :=
  match st key with
  | none => (.ok .null, st)
  | some raw =>
    if rawFalsy raw then (.ok .null, st)
    else
      match jsonParse raw with
      | .ok v => (.ok v, st)
      | .error msg => (.error msg, st)

/-- The forEach body of legacy setItemInStorage in preserve mode: when
the current entry slot is falsy, assign the value from value. -/
def legacyMergeStep (value entry : JSValue) (k : String) : Except String JSValue := do
  let cur ← getProp entry k
  if truthyRead cur then pure entry
  else do
    let x ← getProp value k
    setProp entry k x.storedValue

/-- The preserve-mode merge of legacy setItemInStorage: iterate the
step over the keys of value; any thrown error aborts the iteration. -/
def legacyMerge (entry value : JSValue) : Except String JSValue := do
  let ks ← jsKeys value
  ks.foldlM (legacyMergeStep value) entry

/-- Legacy setItemInStorage.  Every failure inside the try block is
caught, leaving the store untouched and returning false. -/
def setItemInStorage (st : Store) (key : String) (value : JSValue)
    (preserveExisting : Bool) : Bool × Store :=
  if !preserveExisting then
    (true, storeSet st key (jsonStringify value))
  else
    match (getEntryFromStorage st key).1 with
    | .error _ => (false, st)
    | .ok entry =>
      match legacyMerge entry value with
      | .error _ => (false, st)
      | .ok merged => (true, storeSet st key (jsonStringify merged))

/-- Legacy hasPropertyForKey.  The result of the expression
entry && entry[property] !== undefined is returned as is: when entry is
falsy the conjunction short-circuits to entry itself, so the function
can return a non-boolean value. -/
def hasPropertyForKey (st : Store) (key prop : String) : JSValue × Store :=
  match (getEntryFromStorage st key).1 with
  | .error _ => (.bool false, st)
  | .ok entry =>
    if truthy entry then
      match getProp entry prop with
      | .error _ => (.bool false, st)
      | .ok o => (.bool o.isDefined, st)
    else (entry, st)

/-- The forEach body of legacy updateStoredPropsForKey: when the
current entry slot is truthy, assign the value from updates. -/
def legacyUpdateStep (updates entry : JSValue) (p : String) : Except String JSValue := do
  let cur ← getProp entry p
  if truthyRead cur then do
    let x ← getProp updates p
    setProp entry p x.storedValue
  else pure entry

/-- The update loop of legacy updateStoredPropsForKey: iterate the step
over the keys of updates. -/
def legacyUpdate (entry updates : JSValue) : Except String JSValue := do
  let ks ← jsKeys updates
  ks.foldlM (legacyUpdateStep updates) entry

/-- Legacy updateStoredPropsForKey. -/
def updateStoredPropsForKey (st : Store) (key : String) (updates : JSValue) :
    Bool × Store :=
  match (getEntryFromStorage st key).1 with
  | .error _ => (false, st)
  | .ok entry =>
    match legacyUpdate entry updates with
    | .error _ => (false, st)
    | .ok merged => (true, storeSet st key (jsonStringify merged))

/-- Pure model of one legacy merge step on object field lists: when the
full property read of k (prototype chain included) is falsy, assign the
binding of k taken from vs. -/
def mergeStep (vs e : List (String × JSValue)) (k : String) :
    List (String × JSValue) :=
  if truthyRead (readOwn e k) then e
  else objAssign e k (readOwn vs k).storedValue

/-- Pure model of one legacy update step on object field lists: when
the full property read of k (prototype chain included) is truthy,
assign the binding of k taken from us. -/
def updStep (us e : List (String × JSValue)) (k : String) :
    List (String × JSValue) :=
  if truthyRead (readOwn e k) then
    objAssign e k (readOwn us k).storedValue
  else e

/-- Whether the pattern is an initial segment of the text. -/
def headMatches : List Char → List Char → Bool
  | [], _ => true
  | _ :: _, [] => false
  | a :: as, b :: bs => a == b && headMatches as bs

/-- Whether the pattern occurs anywhere in the text. -/
def subSearch (pat : List Char) : List Char → Bool
  | [] => headMatches pat []
  | c :: cs => headMatches pat (c :: cs) || subSearch pat cs

/-- String.prototype.includes of JavaScript. -/
def strContains (s pat : String) : Bool := subSearch pat.toList s.toList

/-- The condition error?.includes of the typed setItemInStorage: an
absent error is falsy and the optional chain yields undefined. -/
def errIncludesNotFound : Option String → Bool
  | none => false
  | some e => strContains e "not found"

/-- Object.entries (own enumerable properties).  Arrays and boxed
strings enumerate their elements under index keys; other primitives
have none. -/
def entriesOf : JSValue → List (String × JSValue)
  | .null => []
  | .bool _ => []
  | .num _ => []
  | .str s => (List.range s.length).map fun i => (toString i, .str (String.singleton (s.toList.getD i ' ')))
  | .arr xs => (List.range xs.length).map fun i => (toString i, xs.getD i .null)
  | .obj fs => fs

/-- Object.prototype.hasOwnProperty.call on a non-nullish receiver.
Arrays and boxed strings own their index properties and length; other
primitives own nothing. -/
def ownProp (v : JSValue) (p : String) : Bool :=
  match v with
  | .obj fs => (assocLookup fs p).isSome
  | .str s => (decodeIndex p s.length).isSome || p = "length"
  | .arr xs => (decodeIndex p xs.length).isSome || p = "length"
  | _ => false

/-- The in operator.  Applying it to a primitive throws a TypeError.
Own properties of objects are modelled; prototype-chain properties are
outside the JSON value domain. -/
def jsInOpE (p : String) (v : JSValue) : Except String Bool :=
  match v with
  | .obj fs => .ok (assocLookup fs p).isSome
  | .arr xs => .ok ((decodeIndex p xs.length).isSome || p = "length")
  | _ => .error "Cannot use the in operator to search in a primitive"

/-- Whether a value is the JSON null, the one nullish value a
successful read can produce. -/
def isNullV : JSValue → Bool
  | .null => true
  | _ => false

/-- Object literal spread of two field lists, with the JavaScript
in-place overwrite semantics: a later field with an existing key
replaces the slot, a fresh key is appended. -/
def spreadTwo (a b : List (String × JSValue)) : List (String × JSValue) :=
  b.foldl (fun acc e => objInsert acc e.1 e.2) a

/-- The StorageResult record of the typed variant.  A missing field of
the JavaScript object literal is an absent optional field, modelled as
none. -/
structure StorageResult where
  success : Bool
  data : Option JSValue := none
  error : Option String := none

namespace storageActions

/-- Typed getEntryFromStorage: not-found on a missing or empty raw
string, a parse failure is caught and reported in the error string. -/
def getEntryFromStorage (st : Store) (key : String) : StorageResult × Store :=
  match st key with
  | none => ({ success := false, error := some (key ++ " not found in storage.") }, st)
  | some raw =>
    if rawFalsy raw then
      ({ success := false, error := some (key ++ " not found in storage.") }, st)
    else
      match jsonParse raw with
      | .ok v => ({ success := true, data := some v }, st)
      | .error msg =>
        ({ success := false, error := some ("Failed to get entry from storage: " ++ msg) }, st)

/-- Typed setItemInStorage.  In preserve mode a not-found read falls
back to a plain write, any other read failure is propagated, and
otherwise the incoming fields whose keys the existing data does not own
are appended to it.  Spreading data equal to JSON null is the empty
spread, but hasOwnProperty called on it throws, which the outer catch
turns into a failure; the data-absent branch mirrors the same
evaluation with undefined and is unreachable from the read above. -/
def setItemInStorage (st : Store) (key : String) (value : JSValue)
    (preserveExisting : Bool) : StorageResult × Store :=
  if !preserveExisting then
    ({ success := true, data := some value }, storeSet st key (jsonStringify value))
  else
    let r := (getEntryFromStorage st key).1
    if !r.success && errIncludesNotFound r.error then
      ({ success := true, data := some value }, storeSet st key (jsonStringify value))
    else if !r.success then
      ({ success := false, error := r.error }, st)
    else
      match r.data with
      | some d =>
        if isNullV d && !(entriesOf value).isEmpty then
          ({ success := false,
             error := some "Failed to set item in storage: Cannot convert undefined or null to object" }, st)
        else
          let updated := JSValue.obj (spreadTwo (entriesOf d)
            ((entriesOf value).filter fun e => !ownProp d e.1))
          ({ success := true, data := some updated },
            storeSet st key (jsonStringify updated))
      | none =>
        if (entriesOf value).isEmpty then
          ({ success := true, data := some (JSValue.obj []) },
            storeSet st key (jsonStringify (JSValue.obj [])))
        else
          ({ success := false,
             error := some "Failed to set item in storage: Cannot convert undefined or null to object" }, st)

/-- Typed hasPropertyForKey.  The data field carries the value of
data && property in data: the falsy data itself when data is falsy,
otherwise the boolean result of the in operator, whose TypeError on a
truthy primitive is caught. -/
def hasPropertyForKey (st : Store) (key prop : String) : StorageResult × Store :=
  let r := (getEntryFromStorage st key).1
  if !r.success then
    ({ success := false, error := r.error }, st)
  else
    match r.data with
    | some d =>
      if truthy d then
        match jsInOpE prop d with
        | .ok b => ({ success := true, data := some (JSValue.bool b) }, st)
        | .error msg =>
          ({ success := false, error := some ("Failed to check property: " ++ msg) }, st)
      else ({ success := true, data := some d }, st)
    | none => ({ success := true }, st)

/-- Typed updateStoredPropsForKey.  Any read failure is propagated;
otherwise the update fields whose keys the existing data owns overwrite
the corresponding slots.  The nullish guard and the data-absent branch
mirror the hasOwnProperty TypeError as in setItemInStorage. -/
def updateStoredPropsForKey (st : Store) (key : String) (updates : JSValue) :
    StorageResult × Store :=
  let r := (getEntryFromStorage st key).1
  if !r.success then
    ({ success := false, error := r.error }, st)
  else
    match r.data with
    | some d =>
      if isNullV d && !(entriesOf updates).isEmpty then
        ({ success := false,
           error := some "Failed to update properties: Cannot convert undefined or null to object" }, st)
      else
        let updated := JSValue.obj (spreadTwo (entriesOf d)
          ((entriesOf updates).filter fun e => ownProp d e.1))
        ({ success := true, data := some updated },
          storeSet st key (jsonStringify updated))
    | none =>
      if (entriesOf updates).isEmpty then
        ({ success := true, data := some (JSValue.obj []) },
          storeSet st key (jsonStringify (JSValue.obj [])))
      else
        ({ success := false,
           error := some "Failed to update properties: Cannot convert undefined or null to object" }, st)

end storageActions

/-- The documented invariant of StorageResult: a successful result
carries no error and a failed result carries no data. -/
def resultInv (r : StorageResult) : Prop :=
  (r.success = true → r.error = none) ∧ (r.success = false → r.data = none)

theorem storedValue_readOwn (fs : List (String × JSValue)) (k : String) :
    (readOwn fs k).storedValue = (assocLookup fs k).getD JSValue.null := by
  unfold readOwn
  cases h : assocLookup fs k with
  | some v => rfl
  | none =>
    unfold protoFallback
    by_cases hp : protoProps.contains k = true
    · rw [if_pos hp]; rfl
    · rw [if_neg hp]; rfl

theorem not_proto_ne_protoKey {k : String}
    (h : protoProps.contains k = false) : ¬ k = "__proto__" := by
  intro hh
  subst hh
  exact absurd h (by decide)

theorem readOwn_truthy_isSome {e : List (String × JSValue)} {k : String}
    (hp : protoProps.contains k = false)
    (h : truthyRead (readOwn e k) = true) :
    (assocLookup e k).isSome = true := by
  unfold readOwn at h
  cases he : assocLookup e k with
  | some v => rfl
  | none =>
    rw [he] at h
    unfold protoFallback at h
    rw [hp] at h
    simp [truthyRead] at h

theorem readOwn_congr {a b : List (String × JSValue)} {k : String}
    (h : assocLookup a k = assocLookup b k) : readOwn a k = readOwn b k := by
  unfold readOwn
  rw [h]

theorem assocLookup_append_none {fs : List (String × JSValue)}
    (gs : List (String × JSValue)) {k : String}
    (h : assocLookup fs k = none) :
    assocLookup (fs ++ gs) k = assocLookup gs k := by
  induction fs with
  | nil => rfl
  | cons e rest ih =>
    simp only [assocLookup] at h
    by_cases hk : e.1 = k
    · rw [if_pos hk] at h; exact absurd h (by simp)
    · rw [if_neg hk] at h
      simpa [assocLookup, hk] using ih h

theorem lookup_replaceKey_self {fs : List (String × JSValue)} {k : String}
    (v : JSValue) (h : (assocLookup fs k).isSome = true) :
    assocLookup (replaceKey fs k v) k = some v := by
  induction fs with
  | nil => simp [assocLookup] at h
  | cons e rest ih =>
    by_cases hk : e.1 = k
    · simp [replaceKey, hk, assocLookup]
    · simp only [assocLookup, if_neg hk] at h
      simpa [replaceKey, hk, assocLookup] using ih h

theorem lookup_replaceKey_ne {fs : List (String × JSValue)} {k k' : String}
    (v : JSValue) (h : k' ≠ k) :
    assocLookup (replaceKey fs k v) k' = assocLookup fs k' := by
  induction fs with
  | nil => rfl
  | cons e rest ih =>
    by_cases hk : e.1 = k
    · have : k ≠ k' := fun hh => h hh.symm
      simp [replaceKey, hk, assocLookup, this, hk ▸ this]
    · simp [replaceKey, hk, assocLookup, ih]

theorem lookup_objInsert_self (fs : List (String × JSValue)) (k : String)
    (v : JSValue) : assocLookup (objInsert fs k v) k = some v := by
  unfold objInsert
  by_cases h : (assocLookup fs k).isSome = true
  · rw [if_pos h]; exact lookup_replaceKey_self v h
  · rw [if_neg h]
    have hn : assocLookup fs k = none := by
      cases ho : assocLookup fs k with
      | none => rfl
      | some w => rw [ho] at h; exact absurd rfl h
    rw [assocLookup_append_none _ hn]
    simp [assocLookup]

theorem assocLookup_append (fs gs : List (String × JSValue)) (k : String) :
    assocLookup (fs ++ gs) k =
      if (assocLookup fs k).isSome then assocLookup fs k else assocLookup gs k := by
  induction fs with
  | nil => simp [assocLookup]
  | cons e rest ih =>
    by_cases hk : e.1 = k
    · simp [assocLookup, hk]
    · simpa [assocLookup, hk] using ih

theorem lookup_objInsert_ne (fs : List (String × JSValue)) {k k' : String}
    (v : JSValue) (h : k' ≠ k) :
    assocLookup (objInsert fs k v) k' = assocLookup fs k' := by
  unfold objInsert
  by_cases hi : (assocLookup fs k).isSome = true
  · rw [if_pos hi]; exact lookup_replaceKey_ne v h
  · rw [if_neg hi, assocLookup_append]
    cases ho : assocLookup fs k' with
    | none => simp [ho, assocLookup, Ne.symm h]
    | some w => simp [ho]

theorem lookup_objAssign_ne (fs : List (String × JSValue)) {k k' : String}
    (v : JSValue) (h : k' ≠ k) :
    assocLookup (objAssign fs k v) k' = assocLookup fs k' := by
  unfold objAssign
  by_cases hg : (k == "__proto__" && !(assocLookup fs k).isSome) = true
  · rw [if_pos hg]
  · rw [if_neg hg]
    exact lookup_objInsert_ne fs v h

theorem objAssign_of_isSome {fs : List (String × JSValue)} {k : String}
    (v : JSValue) (h : (assocLookup fs k).isSome = true) :
    objAssign fs k v = objInsert fs k v := by
  unfold objAssign
  rw [h]
  simp

theorem objAssign_of_not_proto {fs : List (String × JSValue)} {k : String}
    (v : JSValue) (h : protoProps.contains k = false) :
    objAssign fs k v = objInsert fs k v := by
  unfold objAssign
  have hne : (k == "__proto__") = false := by
    rw [beq_eq_false_iff_ne]
    exact not_proto_ne_protoKey h
  rw [hne]
  simp

theorem lookup_spreadTwo_none_right (a : List (String × JSValue))
    {b : List (String × JSValue)} {k : String}
    (h : assocLookup b k = none) :
    assocLookup (spreadTwo a b) k = assocLookup a k := by
  induction b generalizing a with
  | nil => rfl
  | cons e rest ih =>
    simp only [assocLookup] at h
    by_cases hk : e.1 = k
    · rw [if_pos hk] at h; exact absurd h (by simp)
    · rw [if_neg hk] at h
      show assocLookup (spreadTwo (objInsert a e.1 e.2) rest) k = _
      rw [ih _ h, lookup_objInsert_ne _ _ (fun hh => hk hh.symm)]

theorem lookup_spreadTwo_nodup_some (a : List (String × JSValue))
    {b : List (String × JSValue)} {k : String}
    (hnd : (b.map Prod.fst).Nodup) (h : (assocLookup b k).isSome = true) :
    assocLookup (spreadTwo a b) k = assocLookup b k := by
  induction b generalizing a with
  | nil => simp [assocLookup] at h
  | cons e rest ih =>
    have hnd' : e.1 ∉ rest.map Prod.fst ∧ (rest.map Prod.fst).Nodup := by
      simpa [List.nodup_cons] using hnd
    by_cases hk : e.1 = k
    · subst hk
      have hrest : assocLookup rest e.1 = none := by
        cases ho : assocLookup rest e.1 with
        | none => rfl
        | some w =>
          exfalso
          apply hnd'.1
          clear ih hnd hnd' h
          induction rest with
          | nil => simp [assocLookup] at ho
          | cons f rr ihr =>
            simp only [assocLookup] at ho
            by_cases hf : f.1 = e.1
            · simp [hf]
            · simp only [if_neg hf] at ho
              simp [ihr ho]
      show assocLookup (spreadTwo (objInsert a e.1 e.2) rest) e.1 = _
      rw [lookup_spreadTwo_none_right _ hrest, lookup_objInsert_self]
      simp [assocLookup]
    · simp only [assocLookup, if_neg hk] at h ⊢
      show assocLookup (spreadTwo (objInsert a e.1 e.2) rest) k = _
      exact ih _ hnd'.2 h

theorem isSome_lookup_spreadTwo (a b : List (String × JSValue)) (k : String) :
    (assocLookup (spreadTwo a b) k).isSome
      = ((assocLookup a k).isSome || (assocLookup b k).isSome) := by
  induction b generalizing a with
  | nil => simp [spreadTwo, assocLookup]
  | cons e rest ih =>
    show (assocLookup (spreadTwo (objInsert a e.1 e.2) rest) k).isSome = _
    rw [ih]
    by_cases hk : e.1 = k
    · subst hk
      rw [lookup_objInsert_self]
      simp [assocLookup]
    · rw [lookup_objInsert_ne _ _ (fun hh => hk hh.symm)]
      simp [assocLookup, hk]

theorem lookup_filterKey_true {fs : List (String × JSValue)}
    {q : String → Bool} {k : String} (h : q k = true) :
    assocLookup (fs.filter fun e => q e.1) k = assocLookup fs k := by
  induction fs with
  | nil => rfl
  | cons e rest ih =>
    by_cases hk : e.1 = k
    · subst hk
      simp [List.filter_cons, h, assocLookup]
    · by_cases hq : q e.1 = true
      · simp [List.filter_cons, hq, assocLookup, hk, ih]
      · simp only [Bool.not_eq_true] at hq
        simp [List.filter_cons, hq, assocLookup, hk, ih]

theorem lookup_filterKey_false {fs : List (String × JSValue)}
    {q : String → Bool} {k : String} (h : q k = false) :
    assocLookup (fs.filter fun e => q e.1) k = none := by
  induction fs with
  | nil => rfl
  | cons e rest ih =>
    by_cases hk : e.1 = k
    · subst hk
      simp [List.filter_cons, h, ih]
    · by_cases hq : q e.1 = true
      · simp [List.filter_cons, hq, assocLookup, hk, ih]
      · simp only [Bool.not_eq_true] at hq
        simp [List.filter_cons, hq, ih]

theorem nodup_keys_filter {fs : List (String × JSValue)}
    (p : String × JSValue → Bool) (h : (fs.map Prod.fst).Nodup) :
    ((fs.filter p).map Prod.fst).Nodup :=
  List.Nodup.sublist (List.Sublist.map Prod.fst (List.filter_sublist fs)) h

theorem legacyMergeStep_obj (vs fs : List (String × JSValue)) (k : String) :
    legacyMergeStep (.obj vs) (.obj fs) k = .ok (.obj (mergeStep vs fs k)) := by
  show (if truthyRead (readOwn fs k) = true
      then (pure (JSValue.obj fs) : Except String JSValue)
      else setProp (JSValue.obj fs) k (readOwn vs k).storedValue)
    = .ok (.obj (mergeStep vs fs k))
  unfold mergeStep
  by_cases h : truthyRead (readOwn fs k) = true
  · rw [if_pos h, if_pos h]; rfl
  · rw [if_neg h, if_neg h]; rfl

theorem legacyMerge_obj (fs vs : List (String × JSValue)) :
    legacyMerge (.obj fs) (.obj vs)
      = .ok (.obj ((vs.map Prod.fst).foldl (mergeStep vs) fs)) := by
  unfold legacyMerge
  show (jsKeys (.obj vs)).bind _ = _
  simp only [jsKeys, Except.bind]
  generalize vs.map Prod.fst = ks
  induction ks generalizing fs with
  | nil => rfl
  | cons k rest ih =>
    rw [List.foldlM_cons, legacyMergeStep_obj, List.foldl_cons]
    simpa [Except.bind] using ih (mergeStep vs fs k)

theorem legacyUpdateStep_obj (us fs : List (String × JSValue)) (k : String) :
    legacyUpdateStep (.obj us) (.obj fs) k = .ok (.obj (updStep us fs k)) := by
  show (if truthyRead (readOwn fs k) = true
      then setProp (JSValue.obj fs) k (readOwn us k).storedValue
      else (pure (JSValue.obj fs) : Except String JSValue))
    = .ok (.obj (updStep us fs k))
  unfold updStep
  by_cases h : truthyRead (readOwn fs k) = true
  · rw [if_pos h, if_pos h]; rfl
  · rw [if_neg h, if_neg h]; rfl

theorem legacyUpdate_obj (fs us : List (String × JSValue)) :
    legacyUpdate (.obj fs) (.obj us)
      = .ok (.obj ((us.map Prod.fst).foldl (updStep us) fs)) := by
  unfold legacyUpdate
  show (jsKeys (.obj us)).bind _ = _
  simp only [jsKeys, Except.bind]
  generalize us.map Prod.fst = ks
  induction ks generalizing fs with
  | nil => rfl
  | cons k rest ih =>
    rw [List.foldlM_cons, legacyUpdateStep_obj, List.foldl_cons]
    simpa [Except.bind] using ih (updStep us fs k)

theorem mergeFold_truthy (vs : List (String × JSValue)) (ks : List String) :
    ∀ (e : List (String × JSValue)) (k : String),
      truthyRead (readOwn e k) = true →
      assocLookup (ks.foldl (mergeStep vs) e) k = assocLookup e k := by
  induction ks with
  | nil => intro e k _; rfl
  | cons k0 rest ih =>
    intro e k h
    rw [List.foldl_cons]
    by_cases h0 : truthyRead (readOwn e k0) = true
    · rw [show mergeStep vs e k0 = e from if_pos h0]
      exact ih e k h
    · have hne : k ≠ k0 := by
        intro hh; rw [hh] at h; exact h0 h
      have hstep : mergeStep vs e k0
          = objAssign e k0 (readOwn vs k0).storedValue := if_neg h0
      have hlook : assocLookup (objAssign e k0 (readOwn vs k0).storedValue) k
          = assocLookup e k := lookup_objAssign_ne e _ hne
      have hread : readOwn (objAssign e k0 (readOwn vs k0).storedValue) k
          = readOwn e k := readOwn_congr hlook
      rw [hstep, ih _ k (by rw [hread]; exact h), hlook]

theorem mergeFold_not_mem (vs : List (String × JSValue)) (ks : List String) :
    ∀ (e : List (String × JSValue)) (k : String), k ∉ ks →
      assocLookup (ks.foldl (mergeStep vs) e) k = assocLookup e k := by
  induction ks with
  | nil => intro e k _; rfl
  | cons k0 rest ih =>
    intro e k hk
    have hne : k ≠ k0 := fun hh => hk (hh ▸ List.mem_cons_self k0 rest)
    have hrest : k ∉ rest := fun hh => hk (List.mem_cons_of_mem k0 hh)
    rw [List.foldl_cons, ih _ k hrest]
    unfold mergeStep
    by_cases h0 : truthyRead (readOwn e k0) = true
    · rw [if_pos h0]
    · rw [if_neg h0, lookup_objAssign_ne _ _ hne]

theorem mergeFold_absent (vs : List (String × JSValue)) (ks : List String)
    (hnd : ks.Nodup) :
    ∀ (e : List (String × JSValue)) (k : String), k ∈ ks →
      assocLookup e k = none → protoProps.contains k = false →
      assocLookup (ks.foldl (mergeStep vs) e) k
        = some ((assocLookup vs k).getD JSValue.null) := by
  induction ks with
  | nil => intro e k hk; exact absurd hk (List.not_mem_nil k)
  | cons k0 rest ih =>
    intro e k hk he hp
    have hnd' : k0 ∉ rest ∧ rest.Nodup := by simpa [List.nodup_cons] using hnd
    rw [List.foldl_cons]
    rcases List.mem_cons.mp hk with hk0 | hkrest
    · subst hk0
      have h0 : truthyRead (readOwn e k) = false := by
        unfold readOwn
        rw [he]
        unfold protoFallback
        rw [hp]
        simp [truthyRead]
      have hstep : mergeStep vs e k
          = objAssign e k (readOwn vs k).storedValue := by
        unfold mergeStep; rw [h0]; simp
      rw [hstep, mergeFold_not_mem vs rest _ k hnd'.1,
        objAssign_of_not_proto _ hp, lookup_objInsert_self,
        storedValue_readOwn]
    · have hne : k ≠ k0 := by
        intro hh; subst hh; exact hnd'.1 hkrest
      have he' : assocLookup (mergeStep vs e k0) k = none := by
        unfold mergeStep
        by_cases h0 : truthyRead (readOwn e k0) = true
        · rw [if_pos h0]; exact he
        · rw [if_neg h0, lookup_objAssign_ne _ _ hne]; exact he
      exact ih hnd'.2 _ k hkrest he' hp

theorem updFold_isSome (us : List (String × JSValue)) (ks : List String) :
    ∀ (e : List (String × JSValue)) (k : String),
      (∀ kk ∈ ks, protoProps.contains kk = false) →
      (assocLookup (ks.foldl (updStep us) e) k).isSome
        = (assocLookup e k).isSome := by
  induction ks with
  | nil => intro e k _; rfl
  | cons k0 rest ih =>
    intro e k hp
    have hp0 : protoProps.contains k0 = false :=
      hp k0 (List.mem_cons_self k0 rest)
    have hprest : ∀ kk ∈ rest, protoProps.contains kk = false :=
      fun kk hkk => hp kk (List.mem_cons_of_mem k0 hkk)
    rw [List.foldl_cons, ih _ k hprest]
    unfold updStep
    by_cases h0 : truthyRead (readOwn e k0) = true
    · rw [if_pos h0]
      have hsome : (assocLookup e k0).isSome = true :=
        readOwn_truthy_isSome hp0 h0
      rw [objAssign_of_isSome _ hsome]
      by_cases hk : k = k0
      · subst hk
        rw [lookup_objInsert_self]
        rw [hsome]
        rfl
      · rw [lookup_objInsert_ne _ _ hk]
    · rw [if_neg h0]

theorem updFold_not_mem (us : List (String × JSValue)) (ks : List String) :
    ∀ (e : List (String × JSValue)) (k : String), k ∉ ks →
      assocLookup (ks.foldl (updStep us) e) k = assocLookup e k := by
  induction ks with
  | nil => intro e k _; rfl
  | cons k0 rest ih =>
    intro e k hk
    have hne : k ≠ k0 := fun hh => hk (hh ▸ List.mem_cons_self k0 rest)
    have hrest : k ∉ rest := fun hh => hk (List.mem_cons_of_mem k0 hh)
    rw [List.foldl_cons, ih _ k hrest]
    unfold updStep
    by_cases h0 : truthyRead (readOwn e k0) = true
    · rw [if_pos h0, lookup_objAssign_ne _ _ hne]
    · rw [if_neg h0]

theorem lookup_isSome_iff_mem_keys (fs : List (String × JSValue)) (k : String) :
    (assocLookup fs k).isSome = true ↔ k ∈ fs.map Prod.fst := by
  induction fs with
  | nil => simp [assocLookup]
  | cons e rest ih =>
    by_cases hk : e.1 = k
    · simp [assocLookup, hk]
    · simp [assocLookup, hk, ih, Ne.symm hk]

theorem noEntry_cases {st : Store} {key : String} (h : noEntry st key = true) :
    st key = none ∨ st key = some RawString.emptyText := by
  unfold noEntry at h
  cases hk : st key with
  | none => exact Or.inl rfl
  | some raw =>
    cases raw with
    | jsonText v => rw [hk] at h; exact absurd h (by simp [rawFalsy])
    | badText => rw [hk] at h; exact absurd h (by simp [rawFalsy])
    | emptyText => exact Or.inr rfl

theorem getEntry_noEntry {st : Store} {key : String}
    (h : noEntry st key = true) :
    getEntryFromStorage st key = (.ok .null, st) := by
  rcases noEntry_cases h with hk | hk <;>
    simp [getEntryFromStorage, hk, rawFalsy]

theorem getEntry_json {st : Store} {key : String} {v : JSValue}
    (h : st key = some (RawString.jsonText v)) :
    getEntryFromStorage st key = (.ok v, st) := by
  simp [getEntryFromStorage, h, rawFalsy, jsonParse]

theorem getEntry_bad {st : Store} {key : String}
    (h : st key = some RawString.badText) :
    getEntryFromStorage st key = (.error "Unexpected token in JSON", st) := by
  simp [getEntryFromStorage, h, rawFalsy, jsonParse]

theorem typedGetEntry_noEntry {st : Store} {key : String}
    (h : noEntry st key = true) :
    storageActions.getEntryFromStorage st key
      = ({ success := false, error := some (key ++ " not found in storage.") }, st) := by
  rcases noEntry_cases h with hk | hk <;>
    simp [storageActions.getEntryFromStorage, hk, rawFalsy]

theorem typedGetEntry_json {st : Store} {key : String} {v : JSValue}
    (h : st key = some (RawString.jsonText v)) :
    storageActions.getEntryFromStorage st key
      = ({ success := true, data := some v }, st) := by
  simp [storageActions.getEntryFromStorage, h, rawFalsy, jsonParse]

theorem typedGetEntry_bad {st : Store} {key : String}
    (h : st key = some RawString.badText) :
    storageActions.getEntryFromStorage st key
      = ({ success := false,
           error := some "Failed to get entry from storage: Unexpected token in JSON" }, st) := by
  simp [storageActions.getEntryFromStorage, h, rawFalsy, jsonParse]

theorem subSearch_append {pat : List Char} (l1 : List Char) {l2 : List Char}
    (h : subSearch pat l2 = true) : subSearch pat (l1 ++ l2) = true := by
  induction l1 with
  | nil => simpa using h
  | cons c cs ih =>
    show (headMatches pat (c :: (cs ++ l2)) || subSearch pat (cs ++ l2)) = true
    rw [ih]
    simp

theorem notFound_msg_contains (key : String) :
    strContains (key ++ " not found in storage.") "not found" = true := by
  unfold strContains
  have hdata : (key ++ " not found in storage.").toList
      = key.toList ++ (" not found in storage.").toList := by
    simp [String.toList, String.data_append]
  rw [hdata]
  exact subSearch_append key.toList (by decide)

theorem parseFail_msg_no_notFound :
    strContains "Failed to get entry from storage: Unexpected token in JSON"
      "not found" = false := by decide

theorem lookup_filter_none {fs : List (String × JSValue)}
    (p : String × JSValue → Bool) {k : String}
    (h : assocLookup fs k = none) :
    assocLookup (fs.filter p) k = none := by
  induction fs with
  | nil => rfl
  | cons e rest ih =>
    simp only [assocLookup] at h
    by_cases hk : e.1 = k
    · rw [if_pos hk] at h; exact absurd h (by simp)
    · rw [if_neg hk] at h
      by_cases hp : p e = true
      · simp [List.filter_cons, hp, assocLookup, hk, ih h]
      · simp only [Bool.not_eq_true] at hp
        simp [List.filter_cons, hp, ih h]

theorem mem_of_assocLookup {fs : List (String × JSValue)} {k : String}
    {w : JSValue} (h : assocLookup fs k = some w) : (k, w) ∈ fs := by
  induction fs with
  | nil => simp [assocLookup] at h
  | cons e rest ih =>
    simp only [assocLookup] at h
    by_cases hk : e.1 = k
    · rw [if_pos hk] at h
      injection h with h2
      have : e = (k, w) := by
        cases e; simp_all
      simp [this]
    · rw [if_neg hk] at h
      exact List.mem_cons_of_mem _ (ih h)

theorem typedSet_preserve_obj {st : Store} {key : String}
    {fs : List (String × JSValue)} (vs : List (String × JSValue))
    (h : st key = some (RawString.jsonText (JSValue.obj fs))) :
    storageActions.setItemInStorage st key (.obj vs) true
      = ({ success := true,
           data := some (.obj (spreadTwo fs
             (vs.filter fun e => !(assocLookup fs e.1).isSome))) },
         storeSet st key (RawString.jsonText (.obj (spreadTwo fs
           (vs.filter fun e => !(assocLookup fs e.1).isSome))))) := by
  unfold storageActions.setItemInStorage
  rw [typedGetEntry_json h]
  simp [errIncludesNotFound, isNullV, entriesOf, ownProp, jsonStringify]

theorem legacySet_preserve_obj {st : Store} {key : String}
    {fs : List (String × JSValue)} (vs : List (String × JSValue))
    (h : st key = some (RawString.jsonText (JSValue.obj fs))) :
    setItemInStorage st key (.obj vs) true
      = (true, storeSet st key (RawString.jsonText
          (.obj ((vs.map Prod.fst).foldl (mergeStep vs) fs)))) := by
  unfold setItemInStorage
  rw [getEntry_json h]
  simp [legacyMerge_obj, jsonStringify]

theorem typedUpdate_obj {st : Store} {key : String}
    {fs : List (String × JSValue)} (us : List (String × JSValue))
    (h : st key = some (RawString.jsonText (JSValue.obj fs))) :
    storageActions.updateStoredPropsForKey st key (.obj us)
      = ({ success := true,
           data := some (.obj (spreadTwo fs
             (us.filter fun e => (assocLookup fs e.1).isSome))) },
         storeSet st key (RawString.jsonText (.obj (spreadTwo fs
           (us.filter fun e => (assocLookup fs e.1).isSome))))) := by
  unfold storageActions.updateStoredPropsForKey
  rw [typedGetEntry_json h]
  simp [isNullV, entriesOf, ownProp, jsonStringify]

theorem legacyUpdate_eval_obj {st : Store} {key : String}
    {fs : List (String × JSValue)} (us : List (String × JSValue))
    (h : st key = some (RawString.jsonText (JSValue.obj fs))) :
    updateStoredPropsForKey st key (.obj us)
      = (true, storeSet st key (RawString.jsonText
          (.obj ((us.map Prod.fst).foldl (updStep us) fs)))) := by
  unfold updateStoredPropsForKey
  rw [getEntry_json h]
  simp [legacyUpdate_obj, jsonStringify]

/-- Claim C9: for every key and store state, the read operation of both
variants returns the store unchanged and performs no write. -/
theorem C9_read_is_readonly :
    ∀ (st : Store) (key : String),
      (getEntryFromStorage st key).2 = st ∧
      (storageActions.getEntryFromStorage st key).2 = st := by
  intro st key
  constructor
  · unfold getEntryFromStorage
    cases h : st key with
    | none => rfl
    | some raw => cases raw <;> simp [rawFalsy, jsonParse]
  · unfold storageActions.getEntryFromStorage
    cases h : st key with
    | none => rfl
    | some raw => cases raw <;> simp [rawFalsy, jsonParse]

/-- Claim C8: reading a key with no entry (absent or empty) returns
null in the legacy variant, and a failed StorageResult whose message
states the key was not found in the typed variant. -/
theorem C8_read_missing_fails :
    ∀ (st : Store) (key : String), noEntry st key = true →
      (getEntryFromStorage st key).1 = .ok JSValue.null ∧
      (storageActions.getEntryFromStorage st key).1
        = { success := false, error := some (key ++ " not found in storage.") } ∧
      strContains (key ++ " not found in storage.") "not found" = true := by
  intro st key h
  refine ⟨?_, ?_, notFound_msg_contains key⟩
  · rw [getEntry_noEntry h]
  · rw [typedGetEntry_noEntry h]

theorem C8_witness :
    noEntry emptyStore "missing-key" = true ∧
    ((getEntryFromStorage emptyStore "missing-key").1 = .ok JSValue.null ∧
      (storageActions.getEntryFromStorage emptyStore "missing-key").1
        = { success := false,
            error := some ("missing-key" ++ " not found in storage.") } ∧
      strContains ("missing-key" ++ " not found in storage.") "not found" = true) :=
  ⟨rfl, C8_read_missing_fails emptyStore "missing-key" rfl⟩

/-- Claim C6 counterexample: on a missing key the legacy
hasPropertyForKey evaluates entry && entry[property] !== undefined with
entry equal to null, so it returns the value null, not the boolean
false the claim states. -/
theorem C6_counterexample :
    (hasPropertyForKey emptyStore "k" "x").1 = JSValue.null ∧
    (hasPropertyForKey emptyStore "k" "x").1 ≠ JSValue.bool false := by
  refine ⟨rfl, fun h => ?_⟩
  have h2 : JSValue.null = JSValue.bool false := h
  exact JSValue.noConfusion h2

/-- Claim C6 (amended): on a key with no entry the legacy
hasPropertyForKey returns null, which is falsy but is not the boolean
false, and it leaves the store unchanged. -/
theorem C6_hasProperty_missing_null :
    ∀ (st : Store) (key prop : String), noEntry st key = true →
      (hasPropertyForKey st key prop).1 = JSValue.null ∧
      truthy (hasPropertyForKey st key prop).1 = false ∧
      (hasPropertyForKey st key prop).2 = st := by
  intro st key prop h
  unfold hasPropertyForKey
  rw [getEntry_noEntry h]
  simp [truthy]

theorem C6_witness :
    noEntry emptyStore "user" = true ∧
    ((hasPropertyForKey emptyStore "user" "name").1 = JSValue.null ∧
      truthy (hasPropertyForKey emptyStore "user" "name").1 = false ∧
      (hasPropertyForKey emptyStore "user" "name").2 = emptyStore) :=
  ⟨rfl, C6_hasProperty_missing_null emptyStore "user" "name" rfl⟩

/-- Claim C10: in the typed variant, a preserve-mode write on a key
whose stored text is nonempty but not valid JSON fails (the read error
does not mention not found, so no fallback write happens) and leaves
the store unchanged. -/
theorem C10_setItem_badText_aborts :
    ∀ (st : Store) (key : String) (value : JSValue),
      st key = some RawString.badText →
      (storageActions.setItemInStorage st key value true).1.success = false ∧
      (storageActions.setItemInStorage st key value true).1.error
        = some "Failed to get entry from storage: Unexpected token in JSON" ∧
      (storageActions.setItemInStorage st key value true).2 = st := by
  intro st key value h
  unfold storageActions.setItemInStorage
  rw [typedGetEntry_bad h]
  simp [errIncludesNotFound, parseFail_msg_no_notFound]

theorem C10_witness :
    storeSet emptyStore "k" RawString.badText "k" = some RawString.badText ∧
    ((storageActions.setItemInStorage (storeSet emptyStore "k" RawString.badText)
        "k" (JSValue.obj [("a", JSValue.num 1)]) true).1.success = false ∧
      (storageActions.setItemInStorage (storeSet emptyStore "k" RawString.badText)
        "k" (JSValue.obj [("a", JSValue.num 1)]) true).1.error
        = some "Failed to get entry from storage: Unexpected token in JSON" ∧
      (storageActions.setItemInStorage (storeSet emptyStore "k" RawString.badText)
        "k" (JSValue.obj [("a", JSValue.num 1)]) true).2
        = storeSet emptyStore "k" RawString.badText) :=
  ⟨rfl, C10_setItem_badText_aborts (storeSet emptyStore "k" RawString.badText)
    "k" (JSValue.obj [("a", JSValue.num 1)]) rfl⟩

/-- Claim C4: writing any value with preserveExisting false and then
reading the key yields the value back, in both variants; the write
reports success. -/
theorem C4_write_read_roundtrip :
    ∀ (st : Store) (key : String) (v : JSValue),
      (setItemInStorage st key v false).1 = true ∧
      (getEntryFromStorage (setItemInStorage st key v false).2 key).1
        = .ok v ∧
      (storageActions.setItemInStorage st key v false).1
        = { success := true, data := some v } ∧
      (storageActions.getEntryFromStorage
          (storageActions.setItemInStorage st key v false).2 key).1
        = { success := true, data := some v } := by
  intro st key v
  have h1 : (setItemInStorage st key v false).2 key
      = some (RawString.jsonText v) := by
    simp [setItemInStorage, storeSet, jsonStringify]
  have h2 : (storageActions.setItemInStorage st key v false).2 key
      = some (RawString.jsonText v) := by
    simp [storageActions.setItemInStorage, storeSet, jsonStringify]
  refine ⟨rfl, ?_, rfl, ?_⟩
  · rw [getEntry_json h1]
  · rw [typedGetEntry_json h2]

/-- Claim C7: every StorageResult any typed operation returns, for
every input and store state, has no error field when success is true
and no data field when success is false. -/
theorem C7_storageResult_invariant :
    ∀ (st : Store) (key prop : String) (value updates : JSValue)
      (preserve : Bool),
      resultInv (storageActions.getEntryFromStorage st key).1 ∧
      resultInv (storageActions.setItemInStorage st key value preserve).1 ∧
      resultInv (storageActions.hasPropertyForKey st key prop).1 ∧
      resultInv (storageActions.updateStoredPropsForKey st key updates).1 := by
  intro st key prop value updates preserve
  refine ⟨?_, ?_, ?_, ?_⟩
  · unfold storageActions.getEntryFromStorage
    cases st key with
    | none => simp [resultInv]
    | some raw => cases raw <;> simp [rawFalsy, jsonParse, resultInv]
  · unfold storageActions.setItemInStorage
    cases preserve with
    | false => simp [resultInv]
    | true =>
      dsimp only []
      generalize (storageActions.getEntryFromStorage st key).1 = r
      obtain ⟨s, d, e⟩ := r
      cases s
      · by_cases h : errIncludesNotFound e = true <;> simp [resultInv, h]
      · cases d with
        | none =>
          by_cases h : (entriesOf value).isEmpty = true <;> simp [resultInv, h]
        | some v =>
          by_cases h : (isNullV v && !(entriesOf value).isEmpty) = true <;>
            simp [resultInv, h]
  · unfold storageActions.hasPropertyForKey
    dsimp only []
    generalize (storageActions.getEntryFromStorage st key).1 = r
    obtain ⟨s, d, e⟩ := r
    cases s
    · simp [resultInv]
    · cases d with
      | none => simp [resultInv]
      | some v =>
        by_cases h : truthy v = true
        · cases hj : jsInOpE prop v <;> simp [resultInv, h, hj]
        · simp [resultInv, h]
  · unfold storageActions.updateStoredPropsForKey
    dsimp only []
    generalize (storageActions.getEntryFromStorage st key).1 = r
    obtain ⟨s, d, e⟩ := r
    cases s
    · simp [resultInv]
    · cases d with
      | none =>
        by_cases h : (entriesOf updates).isEmpty = true <;> simp [resultInv, h]
      | some v =>
        by_cases h : (isNullV v && !(entriesOf updates).isEmpty) = true <;>
          simp [resultInv, h]

/-- Claim C5 counterexample: on a key with no entry, the legacy
updateStoredPropsForKey with an empty updates object does not fail: the
loop over zero keys never touches the null entry, JSON null is written
for the key, and the call returns true, where the claim states false. -/
theorem C5_counterexample :
    noEntry emptyStore "k" = true ∧
    (updateStoredPropsForKey emptyStore "k" (JSValue.obj [])).1 = true ∧
    (updateStoredPropsForKey emptyStore "k" (JSValue.obj [])).2 "k"
      = some (RawString.jsonText JSValue.null) := ⟨rfl, rfl, rfl⟩

/-- Claim C5 (amended): on a key with no entry, the typed
updateStoredPropsForKey always fails with the not-found error, and the
legacy variant returns false without writing whenever the updates
object has at least one key; with an empty updates object the legacy
variant instead succeeds and stores the JSON text null. -/
theorem C5_update_missing_fails :
    (∀ (st : Store) (key : String) (updates : JSValue),
      noEntry st key = true →
      storageActions.updateStoredPropsForKey st key updates
        = ({ success := false,
             error := some (key ++ " not found in storage.") }, st)) ∧
    (∀ (st : Store) (key : String) (us : List (String × JSValue)),
      noEntry st key = true → us ≠ [] →
      updateStoredPropsForKey st key (.obj us) = (false, st)) := by
  constructor
  · intro st key updates h
    unfold storageActions.updateStoredPropsForKey
    rw [typedGetEntry_noEntry h]
    simp
  · intro st key us h hne
    obtain ⟨e, rest, rfl⟩ : ∃ e rest, us = e :: rest := by
      cases us with
      | nil => exact absurd rfl hne
      | cons e rest => exact ⟨e, rest, rfl⟩
    unfold updateStoredPropsForKey
    rw [getEntry_noEntry h]
    rfl

theorem C5_witness :
    noEntry emptyStore "user" = true ∧
    storageActions.updateStoredPropsForKey emptyStore "user"
        (JSValue.obj [("name", JSValue.str "John")])
      = ({ success := false,
           error := some ("user" ++ " not found in storage.") }, emptyStore) ∧
    ([(("name" : String), JSValue.str "John")] ≠
      ([] : List (String × JSValue))) ∧
    updateStoredPropsForKey emptyStore "user"
        (.obj [("name", JSValue.str "John")])
      = (false, emptyStore) :=
  ⟨rfl,
   C5_update_missing_fails.1 emptyStore "user"
     (JSValue.obj [("name", JSValue.str "John")]) rfl,
   by simp,
   C5_update_missing_fails.2 emptyStore "user"
     [("name", JSValue.str "John")] rfl (by simp)⟩

/-- Claim C3 counterexample: on a key with no entry, the legacy
setItemInStorage in preserve mode does not behave like a plain write:
reading gives null, the merge loop dereferences null and throws, the
error is caught, false is returned and nothing is stored, while the
plain write stores the value and returns true. -/
theorem C3_counterexample :
    (setItemInStorage emptyStore "k" (JSValue.obj [("a", JSValue.num 1)]) true).1
      = false ∧
    (setItemInStorage emptyStore "k" (JSValue.obj [("a", JSValue.num 1)]) true).2 "k"
      = none ∧
    (setItemInStorage emptyStore "k" (JSValue.obj [("a", JSValue.num 1)]) false).1
      = true ∧
    (setItemInStorage emptyStore "k" (JSValue.obj [("a", JSValue.num 1)]) false).2 "k"
      = some (RawString.jsonText (JSValue.obj [("a", JSValue.num 1)])) :=
  ⟨rfl, rfl, rfl, rfl⟩

/-- Claim C3 (amended): on a key with no entry, the typed
setItemInStorage with preserveExisting true behaves identically to a
call with preserveExisting false, while the legacy variant instead
fails for any object value with at least one key: it returns false and
leaves the store unchanged, unlike the plain write, which stores the
value and returns true. -/
theorem C3_preserve_on_missing :
    (∀ (st : Store) (key : String) (value : JSValue),
      noEntry st key = true →
      storageActions.setItemInStorage st key value true
        = storageActions.setItemInStorage st key value false) ∧
    (∀ (st : Store) (key : String) (vs : List (String × JSValue)),
      noEntry st key = true → vs ≠ [] →
      setItemInStorage st key (.obj vs) true = (false, st) ∧
      setItemInStorage st key (.obj vs) false
        = (true, storeSet st key (RawString.jsonText (.obj vs)))) := by
  constructor
  · intro st key value h
    unfold storageActions.setItemInStorage
    rw [typedGetEntry_noEntry h]
    simp [errIncludesNotFound, notFound_msg_contains]
  · intro st key vs h hne
    obtain ⟨e, rest, rfl⟩ : ∃ e rest, vs = e :: rest := by
      cases vs with
      | nil => exact absurd rfl hne
      | cons e rest => exact ⟨e, rest, rfl⟩
    refine ⟨?_, rfl⟩
    unfold setItemInStorage
    rw [getEntry_noEntry h]
    rfl

theorem C3_witness :
    noEntry emptyStore "k" = true ∧
    storageActions.setItemInStorage emptyStore "k"
        (JSValue.obj [("a", JSValue.num 1)]) true
      = storageActions.setItemInStorage emptyStore "k"
        (JSValue.obj [("a", JSValue.num 1)]) false ∧
    ([(("a" : String), JSValue.num 1)] ≠ ([] : List (String × JSValue))) ∧
    setItemInStorage emptyStore "k" (.obj [("a", JSValue.num 1)]) true
      = (false, emptyStore) :=
  ⟨rfl,
   C3_preserve_on_missing.1 emptyStore "k"
     (JSValue.obj [("a", JSValue.num 1)]) rfl,
   by simp,
   (C3_preserve_on_missing.2 emptyStore "k"
     [("a", JSValue.num 1)] rfl (by simp)).1⟩

/-- Claim C1 counterexample, two legacy traces.  First, the legacy
preserve-mode presence test is the truthiness of the full property
read, so a key whose existing value is the falsy number 0 is
overwritten: with entry a maps to 0, a preserve-mode write of a maps
to 99 succeeds and stores 99, where the claim states the existing
value is never overwritten.  Second, a key of the value that is absent
from the entry but names an inherited Object.prototype member reads as
the truthy inherited function, so the merge skips it: a preserve-mode
write of toString maps to x onto entry a maps to 1 stores the entry
unchanged, where the claim states every absent key of the value is
added. -/
theorem C1_counterexample :
    (setItemInStorage
        (storeSet emptyStore "k"
          (RawString.jsonText (JSValue.obj [("a", JSValue.num 0)])))
        "k" (JSValue.obj [("a", JSValue.num 99)]) true).1 = true ∧
    (setItemInStorage
        (storeSet emptyStore "k"
          (RawString.jsonText (JSValue.obj [("a", JSValue.num 0)])))
        "k" (JSValue.obj [("a", JSValue.num 99)]) true).2 "k"
      = some (RawString.jsonText (JSValue.obj [("a", JSValue.num 99)])) ∧
    JSValue.num 99 ≠ JSValue.num 0 ∧
    (setItemInStorage
        (storeSet emptyStore "k"
          (RawString.jsonText (JSValue.obj [("a", JSValue.num 1)])))
        "k" (JSValue.obj [("toString", JSValue.str "x")]) true).1 = true ∧
    (setItemInStorage
        (storeSet emptyStore "k"
          (RawString.jsonText (JSValue.obj [("a", JSValue.num 1)])))
        "k" (JSValue.obj [("toString", JSValue.str "x")]) true).2 "k"
      = some (RawString.jsonText (JSValue.obj [("a", JSValue.num 1)])) ∧
    assocLookup [("a", JSValue.num 1)] "toString" = none := by
  refine ⟨rfl, rfl, fun h => ?_, rfl, rfl, rfl⟩
  injection h with h2
  exact absurd h2 (by decide)

/-- Claim C1 (amended): with an existing object entry, the typed
setItemInStorage in preserve mode succeeds, keeps every existing key
bound to its existing value and adds exactly the keys of the value
absent from the entry; the legacy variant guarantees the same only when
every existing value is truthy and no key of the value names an
inherited Object.prototype member, because its presence test is the
truthiness of the full property read: a falsy existing slot is
overwritten and an absent key that reads as a truthy inherited member
is skipped instead of added. -/
theorem C1_preserve_merge :
    (∀ (st : Store) (key : String) (fs vs : List (String × JSValue)),
      st key = some (RawString.jsonText (JSValue.obj fs)) →
      (vs.map Prod.fst).Nodup →
      (storageActions.setItemInStorage st key (.obj vs) true).1.success
        = true ∧
      ∃ ms, (storageActions.setItemInStorage st key (.obj vs) true).2 key
          = some (RawString.jsonText (JSValue.obj ms)) ∧
        ∀ k, assocLookup ms k
          = if (assocLookup fs k).isSome then assocLookup fs k
            else assocLookup vs k) ∧
    (∀ (st : Store) (key : String) (fs vs : List (String × JSValue)),
      st key = some (RawString.jsonText (JSValue.obj fs)) →
      (∀ e ∈ fs, truthy e.2 = true) →
      (vs.map Prod.fst).Nodup →
      (∀ kk ∈ vs.map Prod.fst, protoProps.contains kk = false) →
      (setItemInStorage st key (.obj vs) true).1 = true ∧
      ∃ ms, (setItemInStorage st key (.obj vs) true).2 key
          = some (RawString.jsonText (JSValue.obj ms)) ∧
        ∀ k, assocLookup ms k
          = if (assocLookup fs k).isSome then assocLookup fs k
            else assocLookup vs k) := by
  constructor
  · intro st key fs vs h hnd
    rw [typedSet_preserve_obj vs h]
    refine ⟨rfl,
      spreadTwo fs (vs.filter fun e => !(assocLookup fs e.1).isSome),
      by simp [storeSet], ?_⟩
    intro k
    by_cases hfk : (assocLookup fs k).isSome = true
    · rw [if_pos hfk]
      have hf : assocLookup
          (vs.filter fun e => !(assocLookup fs e.1).isSome) k = none :=
        lookup_filterKey_false (q := fun kk => !(assocLookup fs kk).isSome)
          (by simp [hfk])
      exact lookup_spreadTwo_none_right fs hf
    · rw [if_neg hfk]
      have hfk2 : (assocLookup fs k).isSome = false := by
        cases hh : (assocLookup fs k).isSome with
        | false => rfl
        | true => exact absurd hh hfk
      have hfil : assocLookup
          (vs.filter fun e => !(assocLookup fs e.1).isSome) k
          = assocLookup vs k :=
        lookup_filterKey_true (q := fun kk => !(assocLookup fs kk).isSome)
          (by simp [hfk2])
      by_cases hvk : (assocLookup vs k).isSome = true
      · have hnd2 : ((vs.filter fun e =>
            !(assocLookup fs e.1).isSome).map Prod.fst).Nodup :=
          nodup_keys_filter _ hnd
        rw [lookup_spreadTwo_nodup_some fs hnd2 (by rw [hfil]; exact hvk),
          hfil]
      · have hvnone : assocLookup vs k = none := by
          cases hh : assocLookup vs k with
          | none => rfl
          | some w => rw [hh] at hvk; exact absurd rfl hvk
        have hfnone : assocLookup fs k = none := by
          cases hh : assocLookup fs k with
          | none => rfl
          | some w => rw [hh] at hfk; exact absurd rfl hfk
        rw [lookup_spreadTwo_none_right fs (by rw [hfil]; exact hvnone),
          hfnone, hvnone]
  · intro st key fs vs h htr hnd hnp
    rw [legacySet_preserve_obj vs h]
    refine ⟨rfl, (vs.map Prod.fst).foldl (mergeStep vs) fs,
      by simp [storeSet], ?_⟩
    intro k
    by_cases hfk : (assocLookup fs k).isSome = true
    · rw [if_pos hfk]
      obtain ⟨w, hw⟩ := Option.isSome_iff_exists.mp hfk
      have htw : truthy w = true := htr (k, w) (mem_of_assocLookup hw)
      have htt : truthyRead (readOwn fs k) = true := by
        unfold readOwn; rw [hw]; exact htw
      exact mergeFold_truthy vs (vs.map Prod.fst) fs k htt
    · rw [if_neg hfk]
      have hfnone : assocLookup fs k = none := by
        cases hh : assocLookup fs k with
        | none => rfl
        | some w => rw [hh] at hfk; exact absurd rfl hfk
      by_cases hkm : k ∈ vs.map Prod.fst
      · rw [mergeFold_absent vs (vs.map Prod.fst) hnd fs k hkm hfnone
          (hnp k hkm)]
        have hvs : (assocLookup vs k).isSome = true :=
          (lookup_isSome_iff_mem_keys vs k).mpr hkm
        obtain ⟨v, hv⟩ := Option.isSome_iff_exists.mp hvs
        rw [hv]; rfl
      · rw [mergeFold_not_mem vs (vs.map Prod.fst) fs k hkm, hfnone]
        cases hh : assocLookup vs k with
        | none => rfl
        | some w =>
          exact absurd ((lookup_isSome_iff_mem_keys vs k).mp
            (by rw [hh]; rfl)) hkm

theorem C1_witness :
    (storeSet emptyStore "k"
        (RawString.jsonText (JSValue.obj [("a", JSValue.num 1)]))) "k"
      = some (RawString.jsonText (JSValue.obj [("a", JSValue.num 1)])) ∧
    (([("a", JSValue.num 99), ("b", JSValue.num 2)].map Prod.fst).Nodup) ∧
    (∀ e ∈ [(("a" : String), JSValue.num 1)], truthy e.2 = true) ∧
    (∀ kk ∈ [("a", JSValue.num 99), ("b", JSValue.num 2)].map Prod.fst,
      protoProps.contains kk = false) ∧
    (storageActions.setItemInStorage
        (storeSet emptyStore "k"
          (RawString.jsonText (JSValue.obj [("a", JSValue.num 1)])))
        "k" (.obj [("a", JSValue.num 99), ("b", JSValue.num 2)]) true).1.success
      = true ∧
    (setItemInStorage
        (storeSet emptyStore "k"
          (RawString.jsonText (JSValue.obj [("a", JSValue.num 1)])))
        "k" (.obj [("a", JSValue.num 99), ("b", JSValue.num 2)]) true).1
      = true :=
  ⟨rfl, by decide, by decide, by decide,
   (C1_preserve_merge.1
     (storeSet emptyStore "k"
       (RawString.jsonText (JSValue.obj [("a", JSValue.num 1)])))
     "k" [("a", JSValue.num 1)]
     [("a", JSValue.num 99), ("b", JSValue.num 2)] rfl (by decide)).1,
   (C1_preserve_merge.2
     (storeSet emptyStore "k"
       (RawString.jsonText (JSValue.obj [("a", JSValue.num 1)])))
     "k" [("a", JSValue.num 1)]
     [("a", JSValue.num 99), ("b", JSValue.num 2)] rfl (by decide)
     (by decide) (by decide)).1⟩

/-- Claim C2 counterexample: the legacy update condition is the
truthiness of the full property read, so an update key that is absent
from the entry but names an inherited Object.prototype member reads as
the truthy inherited function and is assigned: updating entry a maps
to 1 with toString maps to x stores the entry with the new own key
toString, where the claim states the operation never introduces a new
key. -/
theorem C2_counterexample :
    assocLookup [("a", JSValue.num 1)] "toString" = none ∧
    (updateStoredPropsForKey
        (storeSet emptyStore "k"
          (RawString.jsonText (JSValue.obj [("a", JSValue.num 1)])))
        "k" (JSValue.obj [("toString", JSValue.str "x")])).1 = true ∧
    (updateStoredPropsForKey
        (storeSet emptyStore "k"
          (RawString.jsonText (JSValue.obj [("a", JSValue.num 1)])))
        "k" (JSValue.obj [("toString", JSValue.str "x")])).2 "k"
      = some (RawString.jsonText
          (JSValue.obj [("a", JSValue.num 1), ("toString", JSValue.str "x")])) ∧
    assocLookup [("a", JSValue.num 1), ("toString", JSValue.str "x")]
        "toString"
      = some (JSValue.str "x") := ⟨rfl, rfl, rfl, rfl⟩

/-- Claim C2 (amended): with an existing object entry, the typed
updateStoredPropsForKey overwrites a slot only when its key already
exists in the entry, silently drops every update key absent from the
entry, and never introduces a new key, for every updates object; the
legacy variant guarantees the same only when no update key names an
inherited Object.prototype member, because its condition is the
truthiness of the full property read: an absent update key that names
an inherited member is assigned and becomes a new own key of the
stored entry. -/
theorem C2_update_only_existing :
    (∀ (st : Store) (key : String) (fs us : List (String × JSValue)),
      st key = some (RawString.jsonText (JSValue.obj fs)) →
      (storageActions.updateStoredPropsForKey st key (.obj us)).1.success
        = true ∧
      ∃ ms, (storageActions.updateStoredPropsForKey st key (.obj us)).2 key
          = some (RawString.jsonText (JSValue.obj ms)) ∧
        (∀ k, (assocLookup ms k).isSome = (assocLookup fs k).isSome) ∧
        (∀ k, assocLookup fs k = none → assocLookup ms k = none) ∧
        (∀ k, assocLookup ms k ≠ assocLookup fs k →
          (assocLookup fs k).isSome = true ∧
          (assocLookup us k).isSome = true)) ∧
    (∀ (st : Store) (key : String) (fs us : List (String × JSValue)),
      st key = some (RawString.jsonText (JSValue.obj fs)) →
      (∀ kk ∈ us.map Prod.fst, protoProps.contains kk = false) →
      (updateStoredPropsForKey st key (.obj us)).1 = true ∧
      ∃ ms, (updateStoredPropsForKey st key (.obj us)).2 key
          = some (RawString.jsonText (JSValue.obj ms)) ∧
        (∀ k, (assocLookup ms k).isSome = (assocLookup fs k).isSome) ∧
        (∀ k, assocLookup fs k = none → assocLookup ms k = none) ∧
        (∀ k, assocLookup ms k ≠ assocLookup fs k →
          (assocLookup fs k).isSome = true ∧
          (assocLookup us k).isSome = true)) := by
  constructor
  · intro st key fs us h
    rw [typedUpdate_obj us h]
    refine ⟨rfl,
      spreadTwo fs (us.filter fun e => (assocLookup fs e.1).isSome),
      by simp [storeSet], ?_, ?_, ?_⟩
    · intro k
      rw [isSome_lookup_spreadTwo]
      by_cases hfk : (assocLookup fs k).isSome = true
      · rw [hfk]; simp
      · have hfk2 : (assocLookup fs k).isSome = false := by
          cases hh : (assocLookup fs k).isSome with
          | false => rfl
          | true => exact absurd hh hfk
        have hfil : assocLookup
            (us.filter fun e => (assocLookup fs e.1).isSome) k = none :=
          lookup_filterKey_false (q := fun kk => (assocLookup fs kk).isSome)
            hfk2
        rw [hfil, hfk2]
        simp
    · intro k hnone
      have hfil : assocLookup
          (us.filter fun e => (assocLookup fs e.1).isSome) k = none :=
        lookup_filterKey_false (q := fun kk => (assocLookup fs kk).isSome)
          (by show (assocLookup fs k).isSome = false; rw [hnone]; rfl)
      rw [lookup_spreadTwo_none_right fs hfil, hnone]
    · intro k hne
      by_cases hfk : (assocLookup fs k).isSome = true
      · by_cases husk : (assocLookup us k).isSome = true
        · exact ⟨hfk, husk⟩
        · have husnone : assocLookup us k = none := by
            cases hh : assocLookup us k with
            | none => rfl
            | some w => rw [hh] at husk; exact absurd rfl husk
          have hfil : assocLookup
              (us.filter fun e => (assocLookup fs e.1).isSome) k = none :=
            lookup_filter_none _ husnone
          exact absurd (lookup_spreadTwo_none_right fs hfil) hne
      · have hfnone : assocLookup fs k = none := by
          cases hh : assocLookup fs k with
          | none => rfl
          | some w => rw [hh] at hfk; exact absurd rfl hfk
        have hfil : assocLookup
            (us.filter fun e => (assocLookup fs e.1).isSome) k = none :=
          lookup_filterKey_false (q := fun kk => (assocLookup fs kk).isSome)
            (by show (assocLookup fs k).isSome = false; rw [hfnone]; rfl)
        exact absurd (lookup_spreadTwo_none_right fs hfil) hne
  · intro st key fs us h hnp
    rw [legacyUpdate_eval_obj us h]
    refine ⟨rfl, (us.map Prod.fst).foldl (updStep us) fs,
      by simp [storeSet], ?_, ?_, ?_⟩
    · intro k
      exact updFold_isSome us (us.map Prod.fst) fs k hnp
    · intro k hnone
      have := updFold_isSome us (us.map Prod.fst) fs k hnp
      rw [hnone] at this
      cases hh : assocLookup ((us.map Prod.fst).foldl (updStep us) fs) k with
      | none => rfl
      | some w => rw [hh] at this; exact absurd this (by simp)
    · intro k hne
      by_cases hfk : (assocLookup fs k).isSome = true
      · by_cases husk : (assocLookup us k).isSome = true
        · exact ⟨hfk, husk⟩
        · have hkm : k ∉ us.map Prod.fst := fun hm =>
            husk ((lookup_isSome_iff_mem_keys us k).mpr hm)
          exact absurd (updFold_not_mem us (us.map Prod.fst) fs k hkm) hne
      · have hfnone : assocLookup fs k = none := by
          cases hh : assocLookup fs k with
          | none => rfl
          | some w => rw [hh] at hfk; exact absurd rfl hfk
        have := updFold_isSome us (us.map Prod.fst) fs k hnp
        rw [hfnone] at this
        have hmnone : assocLookup
            ((us.map Prod.fst).foldl (updStep us) fs) k = none := by
          cases hh : assocLookup ((us.map Prod.fst).foldl (updStep us) fs) k with
          | none => rfl
          | some w => rw [hh] at this; exact absurd this (by simp)
        exact absurd (by rw [hmnone, hfnone]) hne

theorem C2_witness :
    (storeSet emptyStore "k"
        (RawString.jsonText (JSValue.obj [("a", JSValue.num 1)]))) "k"
      = some (RawString.jsonText (JSValue.obj [("a", JSValue.num 1)])) ∧
    (storageActions.updateStoredPropsForKey
        (storeSet emptyStore "k"
          (RawString.jsonText (JSValue.obj [("a", JSValue.num 1)])))
        "k" (.obj [("a", JSValue.num 99), ("b", JSValue.num 2)])).1.success
      = true ∧
    (∀ kk ∈ [("a", JSValue.num 99), ("b", JSValue.num 2)].map Prod.fst,
      protoProps.contains kk = false) ∧
    (updateStoredPropsForKey
        (storeSet emptyStore "k"
          (RawString.jsonText (JSValue.obj [("a", JSValue.num 1)])))
        "k" (.obj [("a", JSValue.num 99), ("b", JSValue.num 2)])).1
      = true :=
  ⟨rfl,
   (C2_update_only_existing.1
     (storeSet emptyStore "k"
       (RawString.jsonText (JSValue.obj [("a", JSValue.num 1)])))
     "k" [("a", JSValue.num 1)]
     [("a", JSValue.num 99), ("b", JSValue.num 2)] rfl).1,
   by decide,
   (C2_update_only_existing.2
     (storeSet emptyStore "k"
       (RawString.jsonText (JSValue.obj [("a", JSValue.num 1)])))
     "k" [("a", JSValue.num 1)]
     [("a", JSValue.num 99), ("b", JSValue.num 2)] rfl (by decide)).1⟩
